import Mathlib

/-!
Verification of the event-based risk aggregation engine of the oq-engine
repository (modules `openquake/calculators/event_based_risk.py` and
`openquake/commonlib/calculators/event_based_agg.py`).

Numeric values (loss ratios, losses, asset values) are modelled as exact
rationals `ℚ`; numpy float arrays are modelled as total functions from the
index space, and dictionaries as association lists or total functions with
an explicit default of `0` (matching `AccumDict`/`dict.get(key, 0)`).
-/

namespace OqEngine

/-- The combiner step of `EbrCalculator.save_losses` on the dense aggregate
array: `self.agglosses[idx] += agg` adds the shard's sparse `(index, value)`
pairs into the accumulator.  The index space `ι` stands for the triples
`(event_index, rlzi, loss_type_index)`; `numpy` fancy-index `+=` is applied
to the distinct indices coming from `agg.nonzero()`, so folding the
additions one pair at a time is an exact model. -/
def addSparse {ι : Type} [DecidableEq ι] (acc : ι → ℚ) (pairs : List (ι × ℚ)) : ι → ℚ :=
  pairs.foldl (fun f p => fun j => if j = p.1 then f j + p.2 else f j) acc

/-- The total contribution of a sparse pair list at one index
(the sum of the values whose index equals `j`). -/
def sumAt {ι : Type} [DecidableEq ι] (j : ι) (pairs : List (ι × ℚ)) : ℚ :=
  (pairs.map (fun p => if p.1 = j then p.2 else 0)).sum

/-- Applying all shard results in a list, in order, to an accumulator
(the reduction loop of `EbrCalculator.combine`/`save_losses`). -/
def combineShards {ι : Type} [DecidableEq ι] (acc : ι → ℚ)
    (shards : List (List (ι × ℚ))) : ι → ℚ :=
  shards.foldl addSparse acc

/-- The combiner of `EventBasedRiskCalculator.agg`:
`for idx, arrays in numpy.ndenumerate(losses): acc[idx].extend(arrays)` —
each cell of the `(O, L, R)` cube is a list that is extended key-wise with
the shard's list for that cell. -/
def aggCube {ι α : Type} (acc res : ι → List α) : ι → List α :=
  fun i => acc i ++ res i

theorem addSparse_eval {ι : Type} [DecidableEq ι] (acc : ι → ℚ)
    (pairs : List (ι × ℚ)) (j : ι) :
    addSparse acc pairs j = acc j + sumAt j pairs := by
  induction pairs generalizing acc with
  | nil => simp [addSparse, sumAt]
  | cons p ps ih =>
    simp only [addSparse, List.foldl_cons] at *
    rw [ih]
    by_cases h : j = p.1
    · subst h
      simp [sumAt, add_assoc]
    · have h' : p.1 ≠ j := fun hc => h hc.symm
      simp [sumAt, h, h']

theorem addSparse_comm {ι : Type} [DecidableEq ι] (acc : ι → ℚ)
    (p1 p2 : List (ι × ℚ)) :
    addSparse (addSparse acc p1) p2 = addSparse (addSparse acc p2) p1 := by
  funext j
  simp only [addSparse_eval]
  ring

theorem combineShards_perm {ι : Type} [DecidableEq ι] (acc : ι → ℚ)
    {s1 s2 : List (List (ι × ℚ))} (h : s1.Perm s2) :
    combineShards acc s1 = combineShards acc s2 := by
  induction h generalizing acc with
  | nil => rfl
  | cons x _ ih =>
    simp only [combineShards, List.foldl_cons] at *
    exact ih _
  | swap x y l =>
    simp only [combineShards, List.foldl_cons]
    rw [addSparse_comm]
  | trans _ _ ih1 ih2 => exact (ih1 acc).trans (ih2 acc)

/-- The full index space of the dense aggregate array
`agg = numpy.zeros((E, R, L * I), F32)` of the `event_based_risk` task:
triples `(event_index, rlzi, loss_type_index)` enumerated in row-major
order, exactly as `numpy` iterates them in `agg.nonzero()`. -/
def allIdx (E R K : Nat) : List (Fin E × Fin R × Fin K) :=
  (List.finRange E).product ((List.finRange R).product (List.finRange K))

theorem mem_allIdx (E R K : Nat) (x : Fin E × Fin R × Fin K) :
    x ∈ allIdx E R K := by
  obtain ⟨e, r, k⟩ := x
  unfold allIdx
  rw [List.pair_mem_product]
  constructor
  · exact List.mem_finRange e
  · rw [List.pair_mem_product]
    exact ⟨List.mem_finRange r, List.mem_finRange k⟩

theorem nodup_allIdx (E R K : Nat) : (allIdx E R K).Nodup :=
  (List.nodup_finRange E).product
    ((List.nodup_finRange R).product (List.nodup_finRange K))

/-- `idx = agg.nonzero(); (idx, agg[idx])` at the end of the
`event_based_risk` task: the list of `(index, value)` pairs of the array at
the indices where the value is nonzero, in iteration order over `univ`. -/
def nonzeroPairs {ι : Type} [DecidableEq ι] (univ : List ι) (f : ι → ℚ) :
    List (ι × ℚ) :=
  (univ.filter (fun i => decide (f i ≠ 0))).map (fun i => (i, f i))

theorem sumAt_nonzeroPairs {ι : Type} [DecidableEq ι] (univ : List ι)
    (hnd : univ.Nodup) (f : ι → ℚ) (j : ι) :
    sumAt j (nonzeroPairs univ f) =
      if j ∈ univ ∧ f j ≠ 0 then f j else 0 := by
  induction univ with
  | nil => simp [nonzeroPairs, sumAt]
  | cons i rest ih =>
    obtain ⟨hi, hrest⟩ := List.nodup_cons.mp hnd
    have ihr := ih hrest
    by_cases hf : f i = 0
    · have heq : nonzeroPairs (i :: rest) f = nonzeroPairs rest f := by
        simp [nonzeroPairs, List.filter_cons, hf]
      rw [heq, ihr]
      by_cases hj : j = i
      · subst hj
        simp [hf]
      · simp [List.mem_cons, hj]
    · have heq : nonzeroPairs (i :: rest) f
          = (i, f i) :: nonzeroPairs rest f := by
        simp [nonzeroPairs, List.filter_cons, hf]
      rw [heq]
      have hcons : sumAt j ((i, f i) :: nonzeroPairs rest f)
          = (if i = j then f i else 0) + sumAt j (nonzeroPairs rest f) := by
        simp [sumAt]
      rw [hcons, ihr]
      by_cases hj : j = i
      · subst hj
        simp [hi, hf]
      · have : ¬ (i = j) := fun hc => hj hc.symm
        simp [List.mem_cons, hj, this]

/-- Reconstruction of a dense array from its sparse nonzero pairs, the way
`save_losses` applies a shard result to a zero-initialized accumulator:
`self.agglosses[idx] += agg` starting from `numpy.zeros(...)`. -/
def reconstruct (E R K : Nat) (agg : Fin E × Fin R × Fin K → ℚ) :
    Fin E × Fin R × Fin K → ℚ :=
  addSparse (fun _ => 0) (nonzeroPairs (allIdx E R K) agg)

/-- One record of the `losses_by_event` dataset, of dtype
`[(eid, U64), (rlzi, U16), (loss, (F32, (L * I,)))]` built in
`EbrCalculator.post_execute`. -/
structure EltRec where
  eid : Nat
  rlzi : Nat
  loss : List ℚ
deriving DecidableEq

/-- The inner generator of `post_execute`:
`for r, loss in enumerate(losses) if loss.sum()` — the records contributed
by one event `e`, whose per-realization rows are `vs`, with `r` counting
from the given start value (`0` at the top-level call). -/
def eventRecs (e : Nat) : Nat → List (List ℚ) → List EltRec
  | _, [] => []
  | r, v :: vs =>
      (if v.sum ≠ 0 then [⟨e, r, v⟩] else []) ++ eventRecs e (r + 1) vs

/-- The event loss table of `EbrCalculator.post_execute`:
`numpy.fromiter((e, r, loss) for e, losses in zip(self.eids, self.agglosses)
for r, loss in enumerate(losses) if loss.sum())`.  `eids` is the sorted
event-id list and `agg` the accumulated dense array, event-major. -/
def eltRecords : List Nat → List (List (List ℚ)) → List EltRec
  | [], _ => []
  | _ :: _, [] => []
  | e :: es, rows :: rest => eventRecs e 0 rows ++ eltRecords es rest

/-- The append filter of the `ebr` task in `event_based_agg.py`:
`for rup_id, loss in zip(rup_ids, agg_losses): if loss > 0: append`.
Models the list of `(rup_id, loss)` records appended for one
`(output, loss_type, rlz)` cell. -/
def ebrRecords (rupIds : List Nat) (aggLosses : List ℚ) : List (Nat × ℚ) :=
  (rupIds.zip aggLosses).filter (fun p => decide (p.2 > 0))

/-- `self.eids = sorted(parent['events']['eid'])` in
`EbrCalculator.pre_execute`: the globally sorted ascending event-id
sequence, used for the epsilons, the aggregate array's event axis and the
final event loss table. -/
def sortedEids (raw : List Nat) : List Nat :=
  List.insertionSort (· ≤ ·) raw

theorem mem_eventRecs {e r0 : Nat} {vs : List (List ℚ)} {rec : EltRec}
    (h : rec ∈ eventRecs e r0 vs) :
    rec.eid = e ∧ r0 ≤ rec.rlzi ∧ rec.loss.sum ≠ 0 := by
  induction vs generalizing r0 with
  | nil => simp [eventRecs] at h
  | cons v vs ih =>
    simp only [eventRecs, List.mem_append] at h
    rcases h with h | h
    · by_cases hv : v.sum ≠ 0
      · simp [hv] at h
        subst h
        exact ⟨rfl, le_refl _, hv⟩
      · simp [hv] at h
    · obtain ⟨h1, h2, h3⟩ := ih h
      exact ⟨h1, le_trans (Nat.le_succ r0) h2, h3⟩

theorem eventRecs_complete (e r0 : Nat) (vs : List (List ℚ)) (k : Nat)
    (v : List ℚ) (hk : vs[k]? = some v) (hv : v.sum ≠ 0) :
    (⟨e, r0 + k, v⟩ : EltRec) ∈ eventRecs e r0 vs := by
  induction vs generalizing r0 k with
  | nil => simp at hk
  | cons w ws ih =>
    cases k with
    | zero =>
      simp at hk
      subst hk
      simp [eventRecs, hv]
    | succ k' =>
      simp only [List.getElem?_cons_succ] at hk
      have := ih (r0 + 1) k' hk
      simp only [eventRecs, List.mem_append]
      right
      have harith : r0 + 1 + k' = r0 + (k' + 1) := by omega
      rw [harith] at this
      exact this

theorem mem_eltRecords {eids : List Nat} {agg : List (List (List ℚ))}
    {rec : EltRec} (h : rec ∈ eltRecords eids agg) :
    rec.eid ∈ eids ∧ rec.loss.sum ≠ 0 := by
  induction eids generalizing agg with
  | nil => simp [eltRecords] at h
  | cons e es ih =>
    cases agg with
    | nil => simp [eltRecords] at h
    | cons rows rest =>
      simp only [eltRecords, List.mem_append] at h
      rcases h with h | h
      · obtain ⟨h1, _, h3⟩ := mem_eventRecs h
        exact ⟨by simp [h1], h3⟩
      · obtain ⟨h1, h2⟩ := ih h
        exact ⟨by simp [h1], h2⟩

theorem eltRecords_complete {eids : List Nat} {agg : List (List (List ℚ))}
    {i r : Nat} {e : Nat} {rows : List (List ℚ)} {v : List ℚ}
    (hi : eids[i]? = some e) (hrows : agg[i]? = some rows)
    (hr : rows[r]? = some v) (hv : v.sum ≠ 0) :
    (⟨e, r, v⟩ : EltRec) ∈ eltRecords eids agg := by
  induction eids generalizing agg i with
  | nil => simp at hi
  | cons e0 es ih =>
    cases agg with
    | nil => simp at hrows
    | cons rows0 rest =>
      cases i with
      | zero =>
        simp at hi hrows
        simp only [eltRecords, List.mem_append]
        left
        rw [hi, hrows]
        have := eventRecs_complete e 0 rows r v hr hv
        simpa using this
      | succ i' =>
        simp only [List.getElem?_cons_succ] at hi hrows
        simp only [eltRecords, List.mem_append]
        right
        exact ih hi hrows

/-- Strict ascending lexicographic order on the `(eid, rlzi)` key of event
loss table records. -/
def eltLt (p q : EltRec) : Prop :=
  p.eid < q.eid ∨ (p.eid = q.eid ∧ p.rlzi < q.rlzi)

theorem pairwise_eventRecs (e r0 : Nat) (vs : List (List ℚ)) :
    List.Pairwise eltLt (eventRecs e r0 vs) := by
  induction vs generalizing r0 with
  | nil => simp [eventRecs]
  | cons v vs ih =>
    simp only [eventRecs]
    rw [List.pairwise_append]
    refine ⟨?_, ih (r0 + 1), ?_⟩
    · by_cases hv : v.sum ≠ 0 <;> simp [hv]
    · intro a ha b hb
      obtain ⟨hb1, hb2, _⟩ := mem_eventRecs hb
      by_cases hv : v.sum ≠ 0
      · simp [hv] at ha
        subst ha
        right
        refine ⟨hb1.symm, ?_⟩
        show r0 < b.rlzi
        omega
      · simp [hv] at ha

theorem pairwise_eltRecords {eids : List Nat} (agg : List (List (List ℚ)))
    (hs : List.Pairwise (· < ·) eids) :
    List.Pairwise eltLt (eltRecords eids agg) := by
  induction eids generalizing agg with
  | nil => simp [eltRecords]
  | cons e es ih =>
    cases agg with
    | nil => simp [eltRecords]
    | cons rows rest =>
      rw [List.pairwise_cons] at hs
      obtain ⟨hlt, hs'⟩ := hs
      simp only [eltRecords]
      rw [List.pairwise_append]
      refine ⟨pairwise_eventRecs e 0 rows, ih rest hs', ?_⟩
      intro a ha b hb
      obtain ⟨ha1, _, _⟩ := mem_eventRecs ha
      obtain ⟨hb1, _⟩ := mem_eltRecords hb
      left
      rw [ha1]
      exact hlt _ hb1

theorem sortedEids_sorted (raw : List Nat) :
    List.Pairwise (· ≤ ·) (sortedEids raw) :=
  List.sorted_insertionSort (· ≤ ·) raw

theorem sortedEids_perm (raw : List Nat) : (sortedEids raw).Perm raw :=
  List.perm_insertionSort (· ≤ ·) raw

theorem sortedEids_strict (raw : List Nat) (hnd : raw.Nodup) :
    List.Pairwise (· < ·) (sortedEids raw) := by
  have hnd' : (sortedEids raw).Nodup := (sortedEids_perm raw).nodup_iff.mpr hnd
  have hle := sortedEids_sorted raw
  have := List.Pairwise.and hle hnd'
  exact this.imp (fun h => lt_of_le_of_ne h.1 h.2)

/-- An asset as seen by the task: `asset.ordinal` and
`asset.value(loss_type)` (value indexed by loss-type index). -/
structure Asset where
  ordinal : Nat
  value : Nat → ℚ

/-- The parameters of the `event_based_risk` task: `L = len(riskmodel.lti)`,
`I = insured_losses + 1`, `ses_ratio`, the `avg_losses` flag, whether
`'builder' in param`, the `eid2idx`/`aid2idx` index maps, and the external
`builder.build_curve` (out of scope, kept abstract as a function argument
`aval → ratio column → rlzi → curve`). -/
structure RParams where
  L : Nat
  I : Nat
  ses_ratio : ℚ
  avg_losses : Bool
  builderEnabled : Bool
  eid2idx : Nat → Nat
  aid2idx : Nat → Nat
  buildCurve : ℚ → List ℚ → Nat → List ℚ

/-- The three accumulators of the task, as total functions:
`agg (event_index) (rlzi) (li)` for `agg = numpy.zeros((E, R, L * I))`;
`avg (li) (rlzi) (aid)` for the `AccumDict` of average losses (default 0,
matching both the `zeros(A)` backing and the `KeyError → set` branch);
`curves (asset_index) (rlzi) (li)` for `all_curves[idx, r][lt]`. -/
structure RState where
  agg : Nat → Nat → Nat → ℚ
  avg : Nat → Nat → Nat → ℚ
  curves : Nat → Nat → Nat → List ℚ

/-- Pointwise update of a curried three-argument function at one cell. -/
def upd3 {γ : Type} (f : Nat → Nat → Nat → γ) (a b c : Nat) (v : γ) :
    Nat → Nat → Nat → γ :=
  fun x y z => if x = a ∧ y = b ∧ z = c then v else f x y z

/-- Column `i` of a ratio matrix of shape `(E, I)`: `ratios[:, i]`. -/
def col (i : Nat) (ratios : List (List ℚ)) : List ℚ :=
  ratios.map (fun row => row.getD i 0)

/-- The curve block of the per-asset loop (executed when
`'builder' in param`): for each `i < I`,
`all_curves[aid2idx[aid], r][lt] = builder.build_curve(aval, ratios[:, i], r)`
with `lt` the slot `l + L * i`. -/
def assetCurvesStep (P : RParams) (r l : Nat) (asset : Asset)
    (ratios : List (List ℚ)) (st : RState) : RState :=
  if P.builderEnabled then
    (List.range P.I).foldl (fun s i =>
      { s with curves := (upd3 s.curves (P.aid2idx asset.ordinal) r
          (l + P.L * i) (P.buildCurve (asset.value l) (col i ratios) r)) }) st
  else st

/-- The average-loss block of the per-asset loop (executed when
`param['avg_losses']`): `rat = ratios.sum(axis=0) * ses_ratio` and
`avg[l + L * i, r][aid] += rat[i]` for each `i < I` (a missing key counts
as 0, matching the `except KeyError: lba[aid] = rat[i]` branch). -/
def assetAvgStep (P : RParams) (r l : Nat) (asset : Asset)
    (ratios : List (List ℚ)) (st : RState) : RState :=
  if P.avg_losses then
    (List.range P.I).foldl (fun s i =>
      { s with avg := (upd3 s.avg (l + P.L * i) r asset.ordinal
          (s.avg (l + P.L * i) r asset.ordinal
            + (col i ratios).sum * P.ses_ratio)) }) st
  else st

/-- The aggregate-loss block of the per-asset loop: with
`losses = aval * ratios`, for each `i < I`,
`agg[indices, r, l + L * i] += losses[:, i]` where
`indices = [eid2idx[eid] for eid in out.eids]`. -/
def assetAggStep (P : RParams) (r l : Nat) (eids : List Nat) (asset : Asset)
    (ratios : List (List ℚ)) (st : RState) : RState :=
  (List.range P.I).foldl (fun s i =>
    (eids.zip ratios).foldl (fun s' er =>
      { s' with agg := (upd3 s'.agg (P.eid2idx er.1) r (l + P.L * i)
          (s'.agg (P.eid2idx er.1) r (l + P.L * i)
            + asset.value l * er.2.getD i 0)) }) s) st

/-- The whole per-asset body of the loop
`for a, asset in enumerate(out.assets)` in `event_based_risk`, for loss
type `l` and realization `r`: curves, then average losses, then aggregate
losses, in source order. -/
def processAsset (P : RParams) (r l : Nat) (eids : List Nat) (asset : Asset)
    (ratios : List (List ℚ)) (st : RState) : RState :=
  assetAggStep P r l eids asset ratios
    (assetAvgStep P r l asset ratios
      (assetCurvesStep P r l asset ratios st))

/-- One iteration of `for l, loss_ratios in enumerate(out)`:
`if loss_ratios is None: continue` (the absent ratio is skipped), otherwise
the per-asset loop over `zip(out.assets, loss_ratios)`. -/
def processLossType (P : RParams) (r : Nat) (eids : List Nat)
    (assets : List Asset) (st : RState)
    (entry : Nat × Option (List (List (List ℚ)))) : RState :=
  match entry.2 with
  | none => st
  | some lrs =>
      (assets.zip lrs).foldl
        (fun s p => processAsset P r entry.1 eids p.1 p.2 s) st

/-- One output of `riskmodel.gen_outputs`: its realization index, its
event ids, its assets and, per loss-type index, the optional loss-ratio
array (`None` for GMFs below `minimum_intensity`). -/
structure ROut where
  rlzi : Nat
  eids : List Nat
  assets : List Asset
  lossRatios : List (Option (List (List (List ℚ))))

/-- Processing of one output in the main loop of `event_based_risk`:
`if len(out.eids) == 0: continue`, then the loop over the enumerated
loss-ratio arrays. -/
def processOut (P : RParams) (out : ROut) (st : RState) : RState :=
  if out.eids.length = 0 then st
  else
    out.lossRatios.enum.foldl
      (fun s entry => processLossType P out.rlzi out.eids out.assets s entry)
      st

theorem foldl_preserves {σ β γ : Type} (proj : σ → γ) (f : σ → β → σ) :
    ∀ (xs : List β), (∀ s x, x ∈ xs → proj (f s x) = proj s) →
      ∀ s, proj (xs.foldl f s) = proj s := by
  intro xs
  induction xs with
  | nil => intro _ s; rfl
  | cons x xs ih =>
    intro h s
    rw [List.foldl_cons]
    rw [ih (fun s' y hy => h s' y (List.mem_cons_of_mem x hy))]
    exact h s x (List.mem_cons_self x xs)

theorem assetCurvesStep_agg (P : RParams) (r l : Nat) (asset : Asset)
    (ratios : List (List ℚ)) (st : RState) :
    (assetCurvesStep P r l asset ratios st).agg = st.agg := by
  unfold assetCurvesStep
  by_cases hb : P.builderEnabled
  · rw [if_pos hb]
    refine foldl_preserves RState.agg _ _ (fun s x _ => ?_) st
    rfl
  · rw [if_neg hb]

theorem assetCurvesStep_avg (P : RParams) (r l : Nat) (asset : Asset)
    (ratios : List (List ℚ)) (st : RState) :
    (assetCurvesStep P r l asset ratios st).avg = st.avg := by
  unfold assetCurvesStep
  by_cases hb : P.builderEnabled
  · rw [if_pos hb]
    refine foldl_preserves RState.avg _ _ (fun s x _ => ?_) st
    rfl
  · rw [if_neg hb]

theorem assetAvgStep_agg (P : RParams) (r l : Nat) (asset : Asset)
    (ratios : List (List ℚ)) (st : RState) :
    (assetAvgStep P r l asset ratios st).agg = st.agg := by
  unfold assetAvgStep
  by_cases hb : P.avg_losses
  · rw [if_pos hb]
    refine foldl_preserves RState.agg _ _ (fun s x _ => ?_) st
    rfl
  · rw [if_neg hb]

theorem assetAvgStep_curves (P : RParams) (r l : Nat) (asset : Asset)
    (ratios : List (List ℚ)) (st : RState) :
    (assetAvgStep P r l asset ratios st).curves = st.curves := by
  unfold assetAvgStep
  by_cases hb : P.avg_losses
  · rw [if_pos hb]
    refine foldl_preserves RState.curves _ _ (fun s x _ => ?_) st
    rfl
  · rw [if_neg hb]

theorem assetAggStep_avg (P : RParams) (r l : Nat) (eids : List Nat)
    (asset : Asset) (ratios : List (List ℚ)) (st : RState) :
    (assetAggStep P r l eids asset ratios st).avg = st.avg := by
  unfold assetAggStep
  refine foldl_preserves RState.avg _ _ (fun s i _ => ?_) st
  refine foldl_preserves RState.avg _ _ (fun s' er _ => ?_) s
  rfl

theorem assetAggStep_curves (P : RParams) (r l : Nat) (eids : List Nat)
    (asset : Asset) (ratios : List (List ℚ)) (st : RState) :
    (assetAggStep P r l eids asset ratios st).curves = st.curves := by
  unfold assetAggStep
  refine foldl_preserves RState.curves _ _ (fun s i _ => ?_) st
  refine foldl_preserves RState.curves _ _ (fun s' er _ => ?_) s
  rfl

theorem assetCurvesStep_curves_frame (P : RParams) (r l : Nat)
    (asset : Asset) (ratios : List (List ℚ)) (st : RState) (a r0 z : Nat)
    (hz : ∀ i, z ≠ l + P.L * i) :
    (assetCurvesStep P r l asset ratios st).curves a r0 z
      = st.curves a r0 z := by
  unfold assetCurvesStep
  by_cases hb : P.builderEnabled
  · rw [if_pos hb]
    refine foldl_preserves (fun s => s.curves a r0 z) _ _
      (fun s i _ => ?_) st
    simp [upd3, hz i]
  · rw [if_neg hb]

theorem assetAvgStep_avg_frame (P : RParams) (r l : Nat) (asset : Asset)
    (ratios : List (List ℚ)) (st : RState) (z r0 a : Nat)
    (hz : ∀ i, z ≠ l + P.L * i) :
    (assetAvgStep P r l asset ratios st).avg z r0 a = st.avg z r0 a := by
  unfold assetAvgStep
  by_cases hb : P.avg_losses
  · rw [if_pos hb]
    refine foldl_preserves (fun s => s.avg z r0 a) _ _
      (fun s i _ => ?_) st
    simp [upd3, hz i]
  · rw [if_neg hb]

theorem assetAggStep_agg_frame (P : RParams) (r l : Nat) (eids : List Nat)
    (asset : Asset) (ratios : List (List ℚ)) (st : RState) (e r0 z : Nat)
    (hz : ∀ i, z ≠ l + P.L * i) :
    (assetAggStep P r l eids asset ratios st).agg e r0 z
      = st.agg e r0 z := by
  unfold assetAggStep
  refine foldl_preserves (fun s => s.agg e r0 z) _ _ (fun s i _ => ?_) st
  refine foldl_preserves (fun s => s.agg e r0 z) _ _ (fun s' er _ => ?_) s
  simp [upd3, hz i]

theorem processAsset_frame (P : RParams) (r l : Nat) (eids : List Nat)
    (asset : Asset) (ratios : List (List ℚ)) (st : RState) (z : Nat)
    (hz : ∀ i, z ≠ l + P.L * i) :
    (∀ e r0, (processAsset P r l eids asset ratios st).agg e r0 z
        = st.agg e r0 z)
    ∧ (∀ r0 a, (processAsset P r l eids asset ratios st).avg z r0 a
        = st.avg z r0 a)
    ∧ (∀ a r0, (processAsset P r l eids asset ratios st).curves a r0 z
        = st.curves a r0 z) := by
  unfold processAsset
  refine ⟨fun e r0 => ?_, fun r0 a => ?_, fun a r0 => ?_⟩
  · rw [assetAggStep_agg_frame _ _ _ _ _ _ _ _ _ _ hz,
      assetAvgStep_agg, assetCurvesStep_agg]
  · rw [assetAggStep_avg]
    rw [assetAvgStep_avg_frame _ _ _ _ _ _ _ _ _ hz]
    rw [assetCurvesStep_avg]
  · rw [assetAggStep_curves]
    rw [assetAvgStep_curves]
    exact assetCurvesStep_curves_frame _ _ _ _ _ _ _ _ _ hz

theorem processLossType_frame (P : RParams) (r : Nat) (eids : List Nat)
    (assets : List Asset) (st : RState) (l' : Nat)
    (opt : Option (List (List (List ℚ)))) (z : Nat)
    (hz : ∀ i, z ≠ l' + P.L * i) :
    (∀ e r0, (processLossType P r eids assets st (l', opt)).agg e r0 z
        = st.agg e r0 z)
    ∧ (∀ r0 a, (processLossType P r eids assets st (l', opt)).avg z r0 a
        = st.avg z r0 a)
    ∧ (∀ a r0, (processLossType P r eids assets st (l', opt)).curves a r0 z
        = st.curves a r0 z) := by
  cases opt with
  | none => exact ⟨fun _ _ => rfl, fun _ _ => rfl, fun _ _ => rfl⟩
  | some lrs =>
    unfold processLossType
    refine ⟨fun e r0 => ?_, fun r0 a => ?_, fun a r0 => ?_⟩
    · refine foldl_preserves (fun s => s.agg e r0 z) _ _
        (fun s p _ => ?_) st
      exact (processAsset_frame P r l' eids p.1 p.2 s z hz).1 e r0
    · refine foldl_preserves (fun s => s.avg z r0 a) _ _
        (fun s p _ => ?_) st
      exact (processAsset_frame P r l' eids p.1 p.2 s z hz).2.1 r0 a
    · refine foldl_preserves (fun s => s.curves a r0 z) _ _
        (fun s p _ => ?_) st
      exact (processAsset_frame P r l' eids p.1 p.2 s z hz).2.2 a r0

/-- Two loss-type slot sets `l + L * i` and `l' + L * i'` are disjoint for
distinct loss-type indices below `L`. -/
theorem slot_disjoint {L l l' i i' : Nat} (hl : l < L) (hl' : l' < L)
    (hne : l ≠ l') : l + L * i ≠ l' + L * i' := by
  intro h
  have h1 : (l + L * i) % L = l := by
    rw [Nat.add_mul_mod_self_left]
    exact Nat.mod_eq_of_lt hl
  have h2 : (l' + L * i') % L = l' := by
    rw [Nat.add_mul_mod_self_left]
    exact Nat.mod_eq_of_lt hl'
  rw [h] at h1
  rw [h1] at h2
  exact hne h2

theorem avgFold_eq (P : RParams) (r l : Nat) (asset : Asset)
    (ratios : List (List ℚ)) (n : Nat) (st : RState) (i : Nat) (hi : i < n)
    (hL : 0 < P.L) :
    ((List.range n).foldl (fun s i' =>
        { s with avg := (upd3 s.avg (l + P.L * i') r asset.ordinal
            (s.avg (l + P.L * i') r asset.ordinal
              + (col i' ratios).sum * P.ses_ratio)) }) st).avg
        (l + P.L * i) r asset.ordinal
      = st.avg (l + P.L * i) r asset.ordinal
        + (col i ratios).sum * P.ses_ratio := by
  induction n generalizing st with
  | zero => exact absurd hi (Nat.not_lt_zero i)
  | succ n ih =>
    rw [List.range_succ, List.foldl_append, List.foldl_cons, List.foldl_nil]
    by_cases hin : i = n
    · subst hin
      simp only [upd3, and_self, if_true]
      congr 1
      refine foldl_preserves
        (fun s => s.avg (l + P.L * i) r asset.ordinal) _ _
        (fun s i' hmem => ?_) st
      have hi' : i' < i := List.mem_range.mp hmem
      have hne : l + P.L * i ≠ l + P.L * i' := by
        intro h
        have h2 := Nat.add_left_cancel h
        have h3 := Nat.eq_of_mul_eq_mul_left hL h2
        omega
      simp [upd3, hne]
    · have hi' : i < n := by omega
      have hne : l + P.L * i ≠ l + P.L * n := by
        intro h
        have h2 := Nat.add_left_cancel h
        have h3 := Nat.eq_of_mul_eq_mul_left hL h2
        omega
      simp only [upd3]
      rw [if_neg (fun hc => hne hc.1)]
      exact ih st hi'

theorem assetAvgStep_avg_eq (P : RParams) (r l : Nat) (asset : Asset)
    (ratios : List (List ℚ)) (st : RState) (i : Nat) (hi : i < P.I)
    (hL : 0 < P.L) (havg : P.avg_losses = true) :
    (assetAvgStep P r l asset ratios st).avg (l + P.L * i) r asset.ordinal
      = st.avg (l + P.L * i) r asset.ordinal
        + (col i ratios).sum * P.ses_ratio := by
  unfold assetAvgStep
  rw [havg]
  rw [if_pos rfl]
  exact avgFold_eq P r l asset ratios P.I st i hi hL

/-- `save_losses` update of the `avg_losses-rlzs` dataset: for each key
`(li, r)` with ratio dictionary `ratios` in the shard's `avglosses`,
`l = li if li < self.L else li - self.L`, `vs = self.vals[loss_types[l]]`,
and `self.dset[aids, r, li] += numpy.array([ratios.get(aid, 0) * vs[aid]
for aid in aids])`.  `vals l aid` is the monetary value of asset `aid` for
loss-type index `l`; the dataset is indexed `dset aid r li`. -/
def saveAvgLosses (L : Nat) (vals : Nat → Nat → ℚ) (aids : List Nat)
    (avglosses : List ((Nat × Nat) × List (Nat × ℚ)))
    (dset : Nat → Nat → Nat → ℚ) : Nat → Nat → Nat → ℚ :=
  avglosses.foldl (fun d entry =>
    aids.foldl (fun d' aid =>
      upd3 d' aid entry.1.2 entry.1.1
        (d' aid entry.1.2 entry.1.1
          + (entry.2.lookup aid).getD 0
            * vals (if entry.1.1 < L then entry.1.1 else entry.1.1 - L)
                aid)) d)
    dset

/-- `num_samples = min(len(all_ruptures), oq.epsilon_sampling)` in
`EventBasedRiskCalculator.pre_execute` of `event_based_agg.py`: the number
of epsilons generated per asset by
`make_eps_dict(assets_by_site, num_samples, master_seed, asset_correlation)`
(the log line counts `num_samples * len(eps_dict)` epsilons in total). -/
def num_samples (numRuptures epsilonSampling : Nat) : Nat :=
  min numRuptures epsilonSampling

/-- The Python exception classes relevant to the parent-parameter check.
The source raises `ValueError`.  The `configurationError` constructor is
modelled from the spec: the spec's error taxonomy names a distinct
`ConfigurationError` class for this failure, which never occurs in the
source under scrutiny; it is included so the two can be compared. -/
inductive PyExc where
  | valueError : String → PyExc
  | configurationError : String → PyExc
deriving DecidableEq

/-- The parent-parameter consistency check at the start of
`EbrCalculator.pre_execute` (branch `oq.hazard_calculation_id`):
`raise ValueError(...)` on mismatched `investigation_time`, then on
mismatched `minimum_intensity`.  `minimum_intensity` dictionaries are
modelled as association lists. -/
def checkParentParams (parentInvTime invTime : ℚ)
    (parentMinIntensity minIntensity : List (String × ℚ)) :
    Except PyExc Unit :=
  if parentInvTime ≠ invTime then
    .error (.valueError
      "The parent calculation was using a different investigation_time")
  else if parentMinIntensity ≠ minIntensity then
    .error (.valueError
      "The parent calculation was using a different minimum_intensity")
  else .ok ()

/-- `pre_execute` with a parent datastore: the consistency check runs
first; only if it passes does the calculation proceed to set up its risk
inputs (the setup work is abstracted into the value `setup`). -/
def preExecuteParent {σ : Type} (parentInvTime invTime : ℚ)
    (parentMinIntensity minIntensity : List (String × ℚ)) (setup : σ) :
    Except PyExc σ :=
  match checkParentParams parentInvTime invTime
      parentMinIntensity minIntensity with
  | .error e => .error e
  | .ok _ => .ok setup

/-- The outputs relevant to the insufficient-time edge case: the persisted
event loss table, the logged warning if any, and the optional
`agg_curves-rlzs` output. -/
structure PostOutput (σ : Type) where
  losses_by_event : List EltRec
  warning : Option String
  agg_curves : Option σ

/-- `EbrCalculator.postproc`:
`eff_time = oq.investigation_time * oq.ses_per_logic_tree_path`; if
`eff_time < 2`, `logging.warn(... too small to compute agg_curves ...)`
and return; otherwise the aggregate curves are built from the persisted
`losses_by_event` by the external loss builder (`get_loss_builder(...)`
and `b.build`, out of scope, abstracted as `build`). -/
def postprocStep {σ : Type} (invTime sesPerLtp : ℚ)
    (build : List EltRec → σ) (elt : List EltRec) :
    Option String × Option σ :=
  if invTime * sesPerLtp < 2 then
    (some "eff_time is too small to compute agg_curves", none)
  else (none, some (build elt))

/-- `EbrCalculator.post_execute` followed by `postproc`: the event loss
table is built from `self.eids` and the accumulated `self.agglosses` and
stored unconditionally, before `postproc` decides about the aggregate
curves. -/
def postExecute {σ : Type} (eids : List Nat) (agg : List (List (List ℚ)))
    (invTime sesPerLtp : ℚ) (build : List EltRec → σ) : PostOutput σ :=
  ⟨eltRecords eids agg,
   (postprocStep invTime sesPerLtp build (eltRecords eids agg)).1,
   (postprocStep invTime sesPerLtp build (eltRecords eids agg)).2⟩

theorem mem_eventRecs_loss {e r0 : Nat} {vs : List (List ℚ)} {rec : EltRec}
    (h : rec ∈ eventRecs e r0 vs) : rec.loss ∈ vs := by
  induction vs generalizing r0 with
  | nil => simp [eventRecs] at h
  | cons v vs ih =>
    simp only [eventRecs, List.mem_append] at h
    rcases h with h | h
    · by_cases hv : v.sum ≠ 0
      · simp [hv] at h
        subst h
        exact List.mem_cons_self v vs
      · simp [hv] at h
    · exact List.mem_cons_of_mem v (ih h)

theorem mem_eltRecords_zip {eids : List Nat} {agg : List (List (List ℚ))}
    {rec : EltRec} (h : rec ∈ eltRecords eids agg) :
    ∃ rows, (rec.eid, rows) ∈ eids.zip agg ∧ rec.loss ∈ rows
      ∧ rec.loss.sum ≠ 0 := by
  induction eids generalizing agg with
  | nil => simp [eltRecords] at h
  | cons e es ih =>
    cases agg with
    | nil => simp [eltRecords] at h
    | cons rows rest =>
      simp only [eltRecords, List.mem_append] at h
      rcases h with h | h
      · obtain ⟨h1, _, h3⟩ := mem_eventRecs h
        refine ⟨rows, ?_, mem_eventRecs_loss h, h3⟩
        rw [h1]
        exact List.mem_cons_self _ _
      · obtain ⟨rows', h1, h2, h3⟩ := ih h
        exact ⟨rows', List.mem_cons_of_mem _ h1, h2, h3⟩

/-- Discriminator: the computation raised a `ValueError`. -/
def raisesValueError {σ : Type} : Except PyExc σ → Bool
  | .error (.valueError _) => true
  | _ => false

/-- Discriminator: the computation raised the spec's `ConfigurationError`. -/
def raisesConfigurationError {σ : Type} : Except PyExc σ → Bool
  | .error (.configurationError _) => true
  | _ => false

/-- C1 (counterexample): the claim that applying shard results in any
order yields identical final accumulators fails for the list-cube combiner
`agg`, which extends each cell's list: with one cell, an empty initial
accumulator and two shard results each carrying one appended array, the two
application orders produce the two different cell lists
`[[(0, 1)], [(1, 2)]]` and `[[(1, 2)], [(0, 1)]]`. -/
theorem c1_counterexample :
    aggCube (aggCube (fun _ : Fin 1 => ([] : List (List (Nat × ℚ))))
        (fun _ => [[(0, 1)]]))
        (fun _ => [[(1, 2)]])
      ≠ aggCube (aggCube (fun _ : Fin 1 => ([] : List (List (Nat × ℚ))))
        (fun _ => [[(1, 2)]]))
        (fun _ => [[(0, 1)]]) := by
  intro h
  have h0 := congrFun h 0
  exact absurd h0 (by decide)

/-- C1 (amended): combining shard results into the dense aggregate
accumulator of `save_losses` is commutative and associative — applying
the shard list in any order yields identical accumulators.  The list-cube
combiner `agg` is associative, and reordering shard results leaves every
cell's list equal only up to permutation (the same appended arrays in a
different order), not identical. -/
theorem c1_combination_order (ι α : Type) [DecidableEq ι] :
    (∀ (acc : ι → ℚ) (p1 p2 : List (ι × ℚ)),
        addSparse (addSparse acc p1) p2 = addSparse (addSparse acc p2) p1)
    ∧ (∀ (acc : ι → ℚ) (s1 s2 : List (List (ι × ℚ))), s1.Perm s2 →
        combineShards acc s1 = combineShards acc s2)
    ∧ (∀ (acc r1 r2 : ι → List α),
        aggCube (aggCube acc r1) r2 = aggCube acc (aggCube r1 r2))
    ∧ (∀ (acc r1 r2 : ι → List α) (i : ι),
        (aggCube (aggCube acc r1) r2 i).Perm
          (aggCube (aggCube acc r2) r1 i)) := by
  refine ⟨addSparse_comm, fun acc s1 s2 h => combineShards_perm acc h,
    fun acc r1 r2 => ?_, fun acc r1 r2 i => ?_⟩
  · funext i
    simp [aggCube]
  · simp only [aggCube]
    rw [List.append_assoc, List.append_assoc]
    exact List.Perm.append_left (acc i) List.perm_append_comm

/-- C1 (witness): the dense combiner applied to two concrete shard results
in the two orders gives the same accumulator. -/
theorem c1_witness :
    combineShards (fun _ : Fin 1 => (0 : ℚ))
        [[((0 : Fin 1), (1 : ℚ))], [((0 : Fin 1), (2 : ℚ))]]
      = combineShards (fun _ : Fin 1 => (0 : ℚ))
        [[((0 : Fin 1), (2 : ℚ))], [((0 : Fin 1), (1 : ℚ))]] :=
  (c1_combination_order (Fin 1) Unit).2.1 (fun _ => 0) _ _
    (List.Perm.swap _ _ _)

/-- C2: the persisted event loss table keeps exactly the rows with nonzero
loss-vector sum: every emitted record has `loss.sum ≠ 0`; every
`(event, realization)` position of the accumulated array whose row has
nonzero sum is emitted; an event all of whose rows sum to zero contributes
no record; and the `ebr` task appends a `(rup_id, loss)` record only for
strictly positive `loss`. -/
theorem c2_elt_nonzero_filtering (eids : List Nat)
    (agg : List (List (List ℚ))) (e : Nat) :
    (∀ rec ∈ eltRecords eids agg, rec.loss.sum ≠ 0)
    ∧ (∀ (i r ev : Nat) (rows : List (List ℚ)) (v : List ℚ),
        eids[i]? = some ev → agg[i]? = some rows → rows[r]? = some v →
        v.sum ≠ 0 → (⟨ev, r, v⟩ : EltRec) ∈ eltRecords eids agg)
    ∧ ((∀ pr ∈ eids.zip agg, pr.1 = e → ∀ row ∈ pr.2, row.sum = 0) →
        ∀ rec ∈ eltRecords eids agg, rec.eid ≠ e)
    ∧ (∀ (rupIds : List Nat) (losses : List ℚ) (p : Nat × ℚ),
        p ∈ ebrRecords rupIds losses → p.2 > 0) := by
  refine ⟨?_, ?_, ?_, ?_⟩
  · intro rec hrec
    exact (mem_eltRecords hrec).2
  · intro i r ev rows v hi hrows hr hv
    exact eltRecords_complete hi hrows hr hv
  · intro hzero rec hrec hc
    obtain ⟨rows, hmem, hloss, hsum⟩ := mem_eltRecords_zip hrec
    exact hsum (hzero (rec.eid, rows) hmem hc rec.loss hloss)
  · intro rupIds losses p hp
    have := (List.mem_filter.mp hp).2
    exact of_decide_eq_true this

/-- C2 (witness): concrete instantiation — a record with nonzero sum is
emitted and has nonzero sum; the nonzero row of event `2` is found in the
table; the record of event `1` is not a record of the all-zero event `2`;
a concrete positive `ebr` record is positive. -/
theorem c2_witness :
    (⟨1, 0, [(1 : ℚ)]⟩ : EltRec).loss.sum ≠ 0
    ∧ (⟨2, 0, [(3 : ℚ)]⟩ : EltRec)
        ∈ eltRecords [1, 2] [[[(1 : ℚ)]], [[(3 : ℚ)]]]
    ∧ (⟨1, 0, [(1 : ℚ)]⟩ : EltRec).eid ≠ 2
    ∧ ((0, (5 : ℚ)) : Nat × ℚ).2 > 0 := by
  refine ⟨?_, ?_, ?_, ?_⟩
  · exact (c2_elt_nonzero_filtering [1, 2] [[[(1 : ℚ)]], [[(0 : ℚ)]]] 2).1
      ⟨1, 0, [(1 : ℚ)]⟩ (by norm_num [eltRecords, eventRecs])
  · exact (c2_elt_nonzero_filtering [1, 2] [[[(1 : ℚ)]], [[(3 : ℚ)]]] 2).2.1
      1 0 2 [[(3 : ℚ)]] [(3 : ℚ)] rfl rfl rfl (by norm_num)
  · exact (c2_elt_nonzero_filtering [1, 2] [[[(1 : ℚ)]], [[(0 : ℚ)]]] 2).2.2.1
      (by norm_num) ⟨1, 0, [(1 : ℚ)]⟩ (by norm_num [eltRecords, eventRecs])
  · exact (c2_elt_nonzero_filtering [] [] 0).2.2.2 [0] [(5 : ℚ)]
      (0, (5 : ℚ)) (by norm_num [ebrRecords])

/-- C3: sparsity round-trip — adding the `(index, value)` pairs taken at
`agg.nonzero()` into a zero-initialized array of the same shape, as
`save_losses` does, reproduces the dense aggregate array exactly. -/
theorem c3_sparsity_roundtrip (E R K : Nat)
    (agg : Fin E × Fin R × Fin K → ℚ) :
    reconstruct E R K agg = agg := by
  funext j
  unfold reconstruct
  rw [addSparse_eval]
  rw [sumAt_nonzeroPairs _ (nodup_allIdx E R K)]
  by_cases h : agg j = 0
  · simp [h, mem_allIdx E R K j]
  · simp [h, mem_allIdx E R K j]

/-- C4: `self.eids = sorted(...)` is ascending, and for unique event ids
it is strictly ascending, in which case the records of `losses_by_event`
are produced in strictly ascending lexicographic `(eid, rlzi)` order along
that same event sequence. -/
theorem c4_elt_ascending_order (raw : List Nat)
    (agg : List (List (List ℚ))) :
    List.Pairwise (· ≤ ·) (sortedEids raw)
    ∧ (raw.Nodup →
        List.Pairwise (· < ·) (sortedEids raw)
        ∧ List.Pairwise eltLt (eltRecords (sortedEids raw) agg)) := by
  refine ⟨sortedEids_sorted raw, fun hnd => ?_⟩
  have hstrict := sortedEids_strict raw hnd
  exact ⟨hstrict, pairwise_eltRecords agg hstrict⟩

/-- C4 (witness): a concrete unsorted, duplicate-free event-id list is
sorted strictly ascending and yields a lexicographically ordered table. -/
theorem c4_witness :
    List.Pairwise (· < ·) (sortedEids [3, 1, 2])
    ∧ List.Pairwise eltLt
        (eltRecords (sortedEids [3, 1, 2])
          [[[(1 : ℚ)]], [[(2 : ℚ)]], [[(0 : ℚ)]]]) :=
  (c4_elt_ascending_order [3, 1, 2]
    [[[(1 : ℚ)]], [[(2 : ℚ)]], [[(0 : ℚ)]]]).2 (by decide)

/-- C5: if the loss-ratio array of loss type `l` is absent (`None`, GMFs
below `minimum_intensity`), processing the output leaves every accumulator
cell of that loss type — aggregate array, average-loss mapping and curve
buffer, at every slot `l + L * i` — unchanged: the absent ratio is skipped
entirely, not treated as a zero contribution. -/
theorem c5_none_ratio_skipped (P : RParams) (out : ROut) (st : RState)
    (l : Nat) (hnone : out.lossRatios[l]? = some none)
    (hlen : out.lossRatios.length ≤ P.L) (hl : l < P.L)
    (i e r0 a : Nat) :
    (processOut P out st).agg e r0 (l + P.L * i)
        = st.agg e r0 (l + P.L * i)
    ∧ (processOut P out st).avg (l + P.L * i) r0 a
        = st.avg (l + P.L * i) r0 a
    ∧ (processOut P out st).curves a r0 (l + P.L * i)
        = st.curves a r0 (l + P.L * i) := by
  have key : ∀ (s : RState) (entry : Nat × Option (List (List (List ℚ)))),
      entry ∈ out.lossRatios.enum →
      (∀ e0 r1, (processLossType P out.rlzi out.eids out.assets s entry).agg
          e0 r1 (l + P.L * i) = s.agg e0 r1 (l + P.L * i))
      ∧ (∀ r1 a0, (processLossType P out.rlzi out.eids out.assets s
          entry).avg (l + P.L * i) r1 a0 = s.avg (l + P.L * i) r1 a0)
      ∧ (∀ a0 r1, (processLossType P out.rlzi out.eids out.assets s
          entry).curves a0 r1 (l + P.L * i)
          = s.curves a0 r1 (l + P.L * i)) := by
    intro s entry hmem
    obtain ⟨l', opt⟩ := entry
    have hidx : out.lossRatios[l']? = some opt :=
      List.mk_mem_enum_iff_getElem?.mp hmem
    by_cases hll : l' = l
    · subst hll
      rw [hnone] at hidx
      have hopt : opt = none := by
        injection hidx with h
        exact h.symm
      subst hopt
      exact ⟨fun _ _ => rfl, fun _ _ => rfl, fun _ _ => rfl⟩
    · have hl'len : l' < out.lossRatios.length := by
        rcases List.getElem?_eq_some.mp hidx with ⟨hlt, _⟩
        exact hlt
      have hl' : l' < P.L := lt_of_lt_of_le hl'len hlen
      have hz : ∀ i', l + P.L * i ≠ l' + P.L * i' :=
        fun i' => slot_disjoint hl hl' (fun h => hll h.symm)
      exact processLossType_frame P out.rlzi out.eids out.assets s l' opt
        (l + P.L * i) hz
  unfold processOut
  by_cases hE : out.eids.length = 0
  · rw [if_pos hE]
    exact ⟨rfl, rfl, rfl⟩
  · rw [if_neg hE]
    refine ⟨?_, ?_, ?_⟩
    · refine foldl_preserves (fun s => s.agg e r0 (l + P.L * i)) _ _
        (fun s entry hmem => ?_) st
      exact (key s entry hmem).1 e r0
    · refine foldl_preserves (fun s => s.avg (l + P.L * i) r0 a) _ _
        (fun s entry hmem => ?_) st
      exact (key s entry hmem).2.1 r0 a
    · refine foldl_preserves (fun s => s.curves a r0 (l + P.L * i)) _ _
        (fun s entry hmem => ?_) st
      exact (key s entry hmem).2.2 a r0

/-- Concrete parameters for the C5 witness: one loss type, no insurance,
the builder and average losses enabled. -/
def wParams5 : RParams := ⟨1, 1, 1, true, true, id, id, fun _ _ _ => []⟩

/-- Concrete output for the C5 witness: one event, one asset, and an
absent (`None`) loss-ratio array for loss type 0. -/
def wOut5 : ROut := ⟨0, [7], [⟨0, fun _ => 1⟩], [none]⟩

/-- Zero-initialized accumulators for the C5 witness. -/
def wState5 : RState := ⟨fun _ _ _ => 0, fun _ _ _ => 0, fun _ _ _ => []⟩

/-- C5 (witness): processing the output with the absent ratio leaves the
concrete accumulators unchanged at the loss-type-0 cells. -/
theorem c5_witness :
    (processOut wParams5 wOut5 wState5).agg 0 0 (0 + wParams5.L * 0)
        = wState5.agg 0 0 (0 + wParams5.L * 0)
    ∧ (processOut wParams5 wOut5 wState5).avg (0 + wParams5.L * 0) 0 0
        = wState5.avg (0 + wParams5.L * 0) 0 0
    ∧ (processOut wParams5 wOut5 wState5).curves 0 0 (0 + wParams5.L * 0)
        = wState5.curves 0 0 (0 + wParams5.L * 0) :=
  c5_none_ratio_skipped wParams5 wOut5 wState5 0 rfl (by decide) (by decide)
    0 0 0 0

/-- C6: for an asset processed with average losses enabled, the shard's
average-loss contribution at the cell `(loss type `l`, insured flag `i`,
realization `r`)` keyed by the asset's id equals the sum over the shard's
events of the loss ratio (column `i` of the ratio matrix) multiplied by
the time-scaling factor `ses_ratio`, added onto the accumulator. -/
theorem c6_avg_loss_contribution (P : RParams) (r l : Nat)
    (eids : List Nat) (asset : Asset) (ratios : List (List ℚ))
    (st : RState) (i : Nat) (hi : i < P.I) (hL : 0 < P.L)
    (havg : P.avg_losses = true) :
    (processAsset P r l eids asset ratios st).avg (l + P.L * i) r
        asset.ordinal
      = st.avg (l + P.L * i) r asset.ordinal
        + (col i ratios).sum * P.ses_ratio := by
  unfold processAsset
  rw [assetAggStep_avg]
  rw [assetAvgStep_avg_eq P r l asset ratios _ i hi hL havg]
  rw [assetCurvesStep_avg]

/-- Concrete parameters for the C6 witness (`ses_ratio = 1/2`). -/
def wParams6 : RParams := ⟨1, 1, 1/2, true, true, id, id, fun _ _ _ => []⟩

/-- Concrete asset for the C6 witness: ordinal 3, value 10. -/
def wAsset6 : Asset := ⟨3, fun _ => 10⟩

/-- Zero-initialized accumulators for the C6 witness. -/
def wState6 : RState := ⟨fun _ _ _ => 0, fun _ _ _ => 0, fun _ _ _ => []⟩

/-- C6 (witness): a concrete two-event asset contribution equals
`(2 + 3) * (1/2)` added to the zero accumulator. -/
theorem c6_witness :
    (processAsset wParams6 0 0 [4, 5] wAsset6 [[2], [3]] wState6).avg
        (0 + wParams6.L * 0) 0 wAsset6.ordinal
      = wState6.avg (0 + wParams6.L * 0) 0 wAsset6.ordinal
        + (col 0 [[2], [3]]).sum * wParams6.ses_ratio :=
  c6_avg_loss_contribution wParams6 0 0 [4, 5] wAsset6 [[2], [3]] wState6 0
    (by decide) (by decide) rfl

/-- C7 (counterexample): with one asset (`A = 1`), ten ruptures and an
epsilon-sampling cap of 5 (the compressed sampling is in effect since
`10 > 5`), the code generates `min(10, 5) = 5` epsilons per asset,
exceeding the claimed bound `min(A, sample_cap) = min(1, 5) = 1`. -/
theorem c7_counterexample : ¬ (num_samples 10 5 ≤ min 1 5) := by decide

/-- C7 (amended): the number of epsilon samples generated per asset equals
`min(number_of_ruptures, epsilon_sampling)`; it is at most the sampling
cap and at most the number of ruptures — it is not bounded by the asset
count. -/
theorem c7_epsilon_sample_bound (numRuptures epsilonSampling : Nat) :
    num_samples numRuptures epsilonSampling
        = min numRuptures epsilonSampling
    ∧ num_samples numRuptures epsilonSampling ≤ epsilonSampling
    ∧ num_samples numRuptures epsilonSampling ≤ numRuptures :=
  ⟨rfl, Nat.min_le_right _ _, Nat.min_le_left _ _⟩

/-- C8 (counterexample): with parent `investigation_time = 2` and current
`investigation_time = 1` the check fails immediately — but by raising a
`ValueError`, not an exception of the `ConfigurationError` class named by
the claim. -/
theorem c8_counterexample :
    raisesConfigurationError (preExecuteParent 2 1 [] [] ()) = false
    ∧ preExecuteParent 2 1 [] [] ()
        = Except.error (PyExc.valueError
            "The parent calculation was using a different investigation_time")
    := by
  constructor
  · norm_num [preExecuteParent, checkParentParams, raisesConfigurationError]
  · norm_num [preExecuteParent, checkParentParams]

/-- C8 (amended): if the parent calculation's `investigation_time` or
`minimum_intensity` differs from the current run's configuration,
`pre_execute` fails immediately with a `ValueError` and the calculation
does not proceed. -/
theorem c8_parent_mismatch_fails {σ : Type} (pIT cIT : ℚ)
    (pMI cMI : List (String × ℚ)) (setup : σ)
    (h : pIT ≠ cIT ∨ pMI ≠ cMI) :
    raisesValueError (preExecuteParent pIT cIT pMI cMI setup) = true
    ∧ preExecuteParent pIT cIT pMI cMI setup ≠ .ok setup := by
  unfold preExecuteParent checkParentParams
  by_cases h1 : pIT = cIT
  · rcases h with h | h
    · exact absurd h1 h
    · rw [if_neg (not_not_intro h1), if_pos h]
      exact ⟨rfl, fun hc => Except.noConfusion hc⟩
  · rw [if_pos h1]
    exact ⟨rfl, fun hc => Except.noConfusion hc⟩

/-- C8 (witness): the mismatch `2 ≠ 1` makes the concrete check raise a
`ValueError` and not return the setup. -/
theorem c8_witness :
    raisesValueError (preExecuteParent 2 1 [] [] ()) = true
    ∧ preExecuteParent 2 1 ([] : List (String × ℚ)) [] () ≠ .ok () :=
  c8_parent_mismatch_fails 2 1 [] [] () (Or.inl (by norm_num))

/-- C9: if the effective investigation time
`investigation_time * ses_per_logic_tree_path` is below the threshold 2,
the aggregate-curve output is skipped, a warning is surfaced, and the
event loss table is still produced exactly as usual. -/
theorem c9_insufficient_time_skip {σ : Type} (eids : List Nat)
    (agg : List (List (List ℚ))) (invTime sesPerLtp : ℚ)
    (build : List EltRec → σ) (h : invTime * sesPerLtp < 2) :
    (postExecute eids agg invTime sesPerLtp build).agg_curves = none
    ∧ (postExecute eids agg invTime sesPerLtp build).warning.isSome = true
    ∧ (postExecute eids agg invTime sesPerLtp build).losses_by_event
        = eltRecords eids agg := by
  unfold postExecute postprocStep
  rw [if_pos h]
  exact ⟨rfl, rfl, rfl⟩

/-- C9 (witness): `investigation_time = 1` with one SES per path gives
`eff_time = 1 < 2`: no aggregate curves, a warning, and the event loss
table as usual. -/
theorem c9_witness :
    (postExecute [0] [[[(1 : ℚ)]]] 1 1 (fun _ => (0 : Nat))).agg_curves
        = none
    ∧ (postExecute [0] [[[(1 : ℚ)]]] 1 1
        (fun _ => (0 : Nat))).warning.isSome = true
    ∧ (postExecute [0] [[[(1 : ℚ)]]] 1 1
        (fun _ => (0 : Nat))).losses_by_event
        = eltRecords [0] [[[(1 : ℚ)]]] :=
  c9_insufficient_time_skip [0] [[[(1 : ℚ)]]] 1 1 (fun _ => (0 : Nat))
    (by norm_num)

/-- C10: `save_losses` modifies the average-loss dataset only at rows
indexed by the shard's `aids` — every cell of an asset outside `aids` is
unchanged — and an asset in `aids` that is absent from the `(li, r)`
entry's sparse ratio mapping contributes exactly `ratios.get(aid, 0) = 0`,
leaving its accumulated value at that cell unchanged. -/
theorem c10_save_losses_frame (L : Nat) (vals : Nat → Nat → ℚ)
    (aids : List Nat) (avglosses : List ((Nat × Nat) × List (Nat × ℚ)))
    (dset : Nat → Nat → Nat → ℚ) (aid0 : Nat) :
    (aid0 ∉ aids → ∀ r li,
        saveAvgLosses L vals aids avglosses dset aid0 r li
          = dset aid0 r li)
    ∧ (∀ r0 li0, aid0 ∈ aids →
        (∀ entry ∈ avglosses, entry.1 = (li0, r0) →
          entry.2.lookup aid0 = none) →
        saveAvgLosses L vals aids avglosses dset aid0 r0 li0
          = dset aid0 r0 li0) := by
  constructor
  · intro hout r li
    refine foldl_preserves (fun d => d aid0 r li) _ _
      (fun d entry _ => ?_) dset
    refine foldl_preserves (fun d => d aid0 r li) _ _
      (fun d' aid hmem => ?_) d
    have hne : aid0 ≠ aid := fun hc => hout (hc ▸ hmem)
    simp [upd3, hne]
  · intro r0 li0 _ habs
    refine foldl_preserves (fun d => d aid0 r0 li0) _ _
      (fun d entry hentry => ?_) dset
    refine foldl_preserves (fun d => d aid0 r0 li0) _ _
      (fun d' aid hmem => ?_) d
    by_cases hc : aid0 = aid ∧ r0 = entry.1.2 ∧ li0 = entry.1.1
    · obtain ⟨h1, h2, h3⟩ := hc
      subst h1
      have hkey : entry.1 = (li0, r0) := by
        rw [h3, h2]
      have hlook := habs entry hentry hkey
      rw [← h2, ← h3]
      simp [upd3, hlook]
    · simp [upd3, hc]

/-- C10 (witness): asset 5 is outside the shard's `aids = [1, 2]` and its
cell is untouched; asset 2 is inside `aids` but absent from the ratio
mapping of the only `(li, r)` entry, so its cell is also unchanged. -/
theorem c10_witness :
    saveAvgLosses 1 (fun _ _ => 10) [1, 2] [((0, 0), [(1, 3)])]
        (fun _ _ _ => 0) 5 0 0 = (fun _ _ _ => (0 : ℚ)) 5 0 0
    ∧ saveAvgLosses 1 (fun _ _ => 10) [1, 2] [((0, 0), [(1, 3)])]
        (fun _ _ _ => 0) 2 0 0 = (fun _ _ _ => (0 : ℚ)) 2 0 0 := by
  constructor
  · exact (c10_save_losses_frame 1 (fun _ _ => 10) [1, 2]
      [((0, 0), [(1, 3)])] (fun _ _ _ => 0) 5).1 (by decide) 0 0
  · exact (c10_save_losses_frame 1 (fun _ _ => 10) [1, 2]
      [((0, 0), [(1, 3)])] (fun _ _ _ => 0) 2).2 0 0 (by decide)
      (by decide)

end OqEngine
